import Mathlib

/-!
Shallow embedding of `src/finance_tracker.py` (class `FinanceTracker`):
the transaction store, its persistence round-trip, and the query /
aggregation operations, together with theorems checking the
specification's claims about them.

Python strings are modelled as `List Char`, float amounts as `ℚ`,
`datetime.date` as a year/month/day record, and the JSON file as a list
of records whose `date` field is text.
-/

namespace FinanceTracker

/-- Python strings are modelled as lists of characters. -/
abbrev Str := List Char

/-- `datetime.date`: a calendar date with year, month and day. -/
structure Date where
  year : Nat
  month : Nat
  day : Nat
deriving DecidableEq, Repr

/-- Comparison of `datetime.date` values: lexicographic on
(year, month, day), as CPython compares date objects. -/
def Date.leB (a b : Date) : Bool :=
  if a.year = b.year then
    if a.month = b.month then decide (a.day ≤ b.day)
    else decide (a.month < b.month)
  else decide (a.year < b.year)

/-- Modelled from `datetime`: days since 1970-01-01 of a civil date
(the standard days-from-civil algorithm), used to model
`date.today() - timedelta(days=days)`. -/
def Date.toDays (dt : Date) : Int :=
  let y : Int := if dt.month ≤ 2 then (dt.year : Int) - 1 else (dt.year : Int)
  let era : Int := (if 0 ≤ y then y else y - 399) / 400
  let yoe : Int := y - era * 400
  let mp : Int := ((dt.month : Int) + 9) % 12
  let doy : Int := (153 * mp + 2) / 5 + (dt.day : Int) - 1
  let doe : Int := yoe * 365 + yoe / 4 - yoe / 100 + doy
  era * 146097 + doe - 719468

/-- Modelled from `datetime`: the civil date of a days-since-1970-01-01
count (the standard civil-from-days algorithm). -/
def Date.ofDays (z0 : Int) : Date :=
  let z : Int := z0 + 719468
  let era : Int := (if 0 ≤ z then z else z - 146096) / 146097
  let doe : Int := z - era * 146097
  let yoe : Int := (doe - doe / 1460 + doe / 36524 - doe / 146096) / 365
  let y : Int := yoe + era * 400
  let doy : Int := doe - (365 * yoe + yoe / 4 - yoe / 100)
  let mp : Int := (5 * doy + 2) / 153
  let d : Int := doy - (153 * mp + 2) / 5 + 1
  let m : Int := if mp < 10 then mp + 3 else mp - 9
  ⟨(if m ≤ 2 then y + 1 else y).toNat, m.toNat, d.toNat⟩

/-- `today - datetime.timedelta(days=days)` (line 97 of the source). -/
def dateSubDays (d : Date) (days : Nat) : Date :=
  Date.ofDays (d.toDays - (days : Int))

/-- One entry of `self.transactions`: the dict built in
`add_transaction` (lines 73-80). -/
structure Transaction where
  id : Nat
  date : Date
  amount : ℚ
  category : Str
  description : Str
  type : Str
deriving DecidableEq, Repr

/-- The string `'income'`. -/
def incomeStr : Str := "income".toList

/-- The string `'expense'`. -/
def expenseStr : Str := "expense".toList

/-- The category registry built in `__init__` (lines 17-21):
`self.categories['income']`. -/
def incomeCategories : List Str :=
  ["Зарплата".toList, "Фриланс".toList, "Инвестиции".toList,
   "Подарки".toList, "Прочие доходы".toList]

/-- The category registry built in `__init__` (lines 17-21):
`self.categories['expense']`. -/
def expenseCategories : List Str :=
  ["Еда".toList, "Транспорт".toList, "Развлечения".toList,
   "Коммунальные".toList, "Здоровье".toList, "Одежда".toList,
   "Образование".toList, "Прочие расходы".toList]

/-- `self.categories[ty]`: the registry entries for a transaction type. -/
def categories (ty : Str) : List Str :=
  if ty = incomeStr then incomeCategories
  else if ty = expenseStr then expenseCategories
  else []

/-- The sort relation of `get_transactions` line 107:
`sorted(filtered, key=lambda x: x['date'], reverse=True)` orders by
date descending. -/
def dateDescRel (a b : Transaction) : Prop :=
  Date.leB b.date a.date = true

instance : DecidableRel dateDescRel := fun a b => by
  unfold dateDescRel; infer_instance

/-- The date-window filter of `get_transactions` lines 99-102:
transactions with `date >= cutoff_date`, in original store order. -/
def window (ts : List Transaction) (today : Date) (days : Nat) :
    List Transaction :=
  ts.filter fun t => Date.leB (dateSubDays today days) t.date

/-- `FinanceTracker.get_transactions(days, transaction_type)`
(lines 86-107).  `ty = none` models passing `None`; note that line 104
(`if transaction_type:`) also skips the type filter for the falsy empty
string. -/
def get_transactions (ts : List Transaction) (today : Date) (days : Nat)
    (ty : Option Str) : List Transaction :=
  let filtered := window ts today days
  let filtered :=
    match ty with
    | none => filtered
    | some ty' =>
        if ty'.isEmpty then filtered
        else filtered.filter fun t => decide (t.type = ty')
  List.insertionSort dateDescRel filtered

/-- `FinanceTracker.get_balance(days)` (lines 109-114). -/
def get_balance (ts : List Transaction) (today : Date) (days : Nat) : ℚ :=
  let txs := get_transactions ts today days none
  let income :=
    ((txs.filter fun t => decide (t.type = incomeStr)).map
      Transaction.amount).sum
  let expenses :=
    ((txs.filter fun t => decide (t.type = expenseStr)).map
      Transaction.amount).sum
  income - expenses

/-- `defaultdict(float)` accumulation `m[k] += v`: the first touch of a
key appends it, later touches add into it in place. -/
def updateMap (m : List (Str × ℚ)) (k : Str) (v : ℚ) : List (Str × ℚ) :=
  match m with
  | [] => [(k, v)]
  | (k', v') :: rest =>
      if k' = k then (k', v' + v) :: rest
      else (k', v') :: updateMap rest k v

/-- The loop body of `get_category_summary` lines 123-127: income goes
into the first map, everything else into the second. -/
def summaryStep (acc : List (Str × ℚ) × List (Str × ℚ)) (t : Transaction) :
    List (Str × ℚ) × List (Str × ℚ) :=
  if t.type = incomeStr then (updateMap acc.1 t.category t.amount, acc.2)
  else (acc.1, updateMap acc.2 t.category t.amount)

/-- `FinanceTracker.get_category_summary(days)` (lines 116-129). -/
def get_category_summary (ts : List Transaction) (today : Date)
    (days : Nat) : List (Str × ℚ) × List (Str × ℚ) :=
  let txs := get_transactions ts today days none
  txs.foldl summaryStep ([], [])

/-- The percentage computation of `display_summary` lines 162 and 167:
`(amount / total * 100) if total > 0 else 0`. -/
def percentage (amount total : ℚ) : ℚ :=
  if 0 < total then amount / total * 100 else 0

/-- A record of the persisted JSON file: the in-memory dict with the
date replaced by its textual form (lines 44-48 / 57 of the source). -/
structure Record where
  id : Nat
  date : Str
  amount : ℚ
  category : Str
  description : Str
  type : Str
deriving DecidableEq, Repr

/-- The persisted store as `load_data` can encounter it: absent,
unreadable/structurally corrupt, or a readable list of records. -/
inductive FileState where
  | missing
  | corrupt
  | good (recs : List Record)
deriving DecidableEq, Repr

/-- The digit character of `d` (for `d < 10`). -/
def digitChar (d : Nat) : Char := Char.ofNat (48 + d)

/-- Base-10 digits of `n`, least significant first, with structural
fuel (`fuel ≥ n` suffices). -/
def toDigitsRev : Nat → Nat → List Nat
  | 0, _ => []
  | fuel + 1, n => if n = 0 then [] else n % 10 :: toDigitsRev fuel (n / 10)

/-- Decimal numeral of a natural number, most significant digit first
(what `'%Y'` prints for a year). -/
def natToStr (n : Nat) : Str :=
  if n = 0 then ['0'] else (toDigitsRev n n).reverse.map digitChar

/-- Two-digit zero-padded decimal numeral (what `'%m'` / `'%d'` print). -/
def pad2 (n : Nat) : Str :=
  if n < 10 then '0' :: natToStr n else natToStr n

/-- `date.strftime('%Y-%m-%d')` (line 47 of the source). -/
def formatDate (d : Date) : Str :=
  natToStr d.year ++ '-' :: (pad2 d.month ++ '-' :: pad2 d.day)

/-- Whether a character is a decimal digit. -/
def isDigitCh (c : Char) : Bool :=
  decide ('0' ≤ c) && decide (c ≤ '9')

/-- Reads a nonempty all-digit string as a natural number. -/
def parseNat (s : Str) : Option Nat :=
  if s ≠ [] ∧ s.all isDigitCh then
    some (s.foldl (fun a c => a * 10 + (c.toNat - 48)) 0)
  else none

/-- Splits a string at `'-'` separators. -/
def splitDash : Str → List Str
  | [] => [[]]
  | c :: cs =>
    if c = '-' then [] :: splitDash cs
    else
      match splitDash cs with
      | [] => [[c]]
      | p :: ps => (c :: p) :: ps

/-- Gregorian leap year, as `datetime` uses it. -/
def isLeap (y : Nat) : Bool :=
  decide (y % 4 = 0) && (decide (y % 100 ≠ 0) || decide (y % 400 = 0))

/-- Length of a month, as `datetime` validates days. -/
def daysInMonth (y m : Nat) : Nat :=
  if m = 2 then (if isLeap y then 29 else 28)
  else if m = 4 ∨ m = 6 ∨ m = 9 ∨ m = 11 then 30
  else 31

/-- The field group matched by `strptime`'s `'%d'` directive
(CPython `_strptime` regex `3[0-1]|[1-2]\d|0[1-9]|[1-9]| [1-9]`): one
or two digits with value 1-31, or a space followed by a nonzero digit. -/
def parseDay (s : Str) : Option Nat :=
  match parseNat s with
  | some d => if s.length ≤ 2 ∧ 1 ≤ d ∧ d ≤ 31 then some d else none
  | none =>
    match s with
    | [' ', c] =>
        if '1' ≤ c ∧ c ≤ '9' then some (c.toNat - 48) else none
    | _ => none

/-- `datetime.datetime.strptime(s, '%Y-%m-%d').date()` (lines 33-35):
`'%Y'` matches exactly four digits (CPython regex `\d\d\d\d`), `'%m'`
one or two digits with value 1-12, `'%d'` per `parseDay`, separated by
literal dashes; the matched fields must then form a real calendar date
(`datetime.date` construction). Any other input raises, modelled by
`none`. -/
def parseDate (s : Str) : Option Date :=
  match splitDash s with
  | [ys, ms, ds] =>
    match parseNat ys, parseNat ms, parseDay ds with
    | some y, some m, some d =>
        if ys.length = 4 ∧ ms.length ≤ 2 ∧
            1 ≤ y ∧ 1 ≤ m ∧ m ≤ 12 ∧ d ≤ daysInMonth y m then
          some ⟨y, m, d⟩
        else none
    | _, _, _ => none
  | _ => none

/-- A date `datetime.date` can actually hold (what any in-memory
transaction built by the program carries). -/
def ValidDate (d : Date) : Prop :=
  1 ≤ d.year ∧ d.year ≤ 9999 ∧ 1 ≤ d.month ∧ d.month ≤ 12 ∧
    1 ≤ d.day ∧ d.day ≤ daysInMonth d.year d.month

instance (d : Date) : Decidable (ValidDate d) := by
  unfold ValidDate; infer_instance

/-- One step of `save_data` lines 45-48: copy the dict, turning the date
into text. -/
def saveRecord (t : Transaction) : Record :=
  { id := t.id, date := formatDate t.date, amount := t.amount,
    category := t.category, description := t.description, type := t.type }

/-- `FinanceTracker.save_data` (lines 40-57): the record list written to
the file. -/
def save_data (ts : List Transaction) : List Record := ts.map saveRecord

/-- One step of the loop in `load_data` lines 32-35: restore the date
from its textual form; a bad date raises (`none`). -/
def loadRecord (r : Record) : Option Transaction :=
  (parseDate r.date).map fun d =>
    { id := r.id, date := d, amount := r.amount, category := r.category,
      description := r.description, type := r.type }

/-- The body of the `try` block of `load_data`: all records must have
parseable dates, else the whole load raises. -/
def loadAttempt : List Record → Option (List Transaction)
  | [] => some []
  | r :: rs =>
    match loadRecord r, loadAttempt rs with
    | some t, some ts => some (t :: ts)
    | _, _ => none

/-- `FinanceTracker.load_data` (lines 24-38).  A missing file skips the
body (the prior in-memory list survives); an unreadable file or a bad
date is caught by `except` which resets the store to `[]`; otherwise the
store is replaced by the loaded records. -/
def load_data (prior : List Transaction) (file : FileState) :
    List Transaction :=
  match file with
  | .missing => prior
  | .corrupt => []
  | .good recs =>
    match loadAttempt recs with
    | some ts => ts
    | none => []

/-- The tracker's mutable state: the in-memory list plus the persisted
file it writes. -/
structure Tracker where
  transactions : List Transaction
  file : FileState
deriving DecidableEq, Repr

/-- `FinanceTracker.add_transaction` (lines 59-84): build the dict with
`id = len + 1`, `amount = abs(amount)`, date defaulting to today, append
it, then `save_data()`. -/
def add_transaction (tr : Tracker) (amount : ℚ)
    (category description ty : Str) (date : Option Date) (today : Date) :
    Tracker :=
  let d := date.getD today
  let t : Transaction :=
    { id := tr.transactions.length + 1, date := d, amount := |amount|,
      category := category, description := description, type := ty }
  let ts := tr.transactions ++ [t]
  { transactions := ts, file := .good (save_data ts) }

/-! ### Date-order lemmas -/

theorem Date.leB_iff {a b : Date} :
    a.leB b = true ↔
      a.year < b.year ∨ (a.year = b.year ∧
        (a.month < b.month ∨ (a.month = b.month ∧ a.day ≤ b.day))) := by
  unfold Date.leB
  split_ifs <;> simp_all

theorem Date.leB_refl (d : Date) : d.leB d = true := by
  rw [Date.leB_iff]; omega

theorem Date.leB_total (a b : Date) : a.leB b = true ∨ b.leB a = true := by
  rw [Date.leB_iff, Date.leB_iff]; omega

theorem Date.leB_trans {a b c : Date} (h1 : a.leB b = true)
    (h2 : b.leB c = true) : a.leB c = true := by
  rw [Date.leB_iff] at *; omega

instance : IsTotal Transaction dateDescRel :=
  ⟨fun a b => Date.leB_total b.date a.date⟩

instance : IsTrans Transaction dateDescRel :=
  ⟨fun _ _ _ hab hbc => Date.leB_trans hbc hab⟩

/-! ### Stability of the sort in `get_transactions` -/

theorem filter_date_orderedInsert (d : Date) (a : Transaction)
    (l : List Transaction) :
    (List.orderedInsert dateDescRel a l).filter (fun t => decide (t.date = d)) =
      if a.date = d then
        a :: l.filter (fun t => decide (t.date = d))
      else l.filter (fun t => decide (t.date = d)) := by
  induction l with
  | nil =>
    simp only [List.orderedInsert, List.filter]
    by_cases hd : a.date = d <;> simp [hd]
  | cons x l ih =>
    simp only [List.orderedInsert]
    by_cases hr : dateDescRel a x
    · rw [if_pos hr]
      by_cases hd : a.date = d <;> by_cases hx : x.date = d <;>
        simp [List.filter_cons, hd, hx]
    · rw [if_neg hr]
      by_cases hd : a.date = d
      · have hx : ¬ x.date = d := by
          intro hx
          exact hr (by unfold dateDescRel; rw [hx, hd]; exact Date.leB_refl d)
        simp [List.filter_cons, hd, hx, ih]
      · by_cases hx : x.date = d <;> simp [List.filter_cons, hd, hx, ih]

theorem filter_date_insertionSort (d : Date) (l : List Transaction) :
    (List.insertionSort dateDescRel l).filter (fun t => decide (t.date = d)) =
      l.filter (fun t => decide (t.date = d)) := by
  induction l with
  | nil => rfl
  | cons x l ih =>
    simp only [List.insertionSort]
    rw [filter_date_orderedInsert]
    by_cases hx : x.date = d <;> simp [List.filter_cons, hx, ih]

/-- The specification's reference result for `get_transactions`: the
date window, restricted to the given type when one is given, still in
original store order. -/
def typedWindow (ts : List Transaction) (today : Date) (days : Nat) :
    Option Str → List Transaction
  | none => window ts today days
  | some ty' => (window ts today days).filter fun t => decide (t.type = ty')

theorem get_transactions_eq_insertionSort (ts : List Transaction)
    (today : Date) (days : Nat) (ty : Option Str)
    (hty : ∀ s, ty = some s → s ≠ []) :
    get_transactions ts today days ty =
      List.insertionSort dateDescRel (typedWindow ts today days ty) := by
  cases ty with
  | none => rfl
  | some s =>
    cases s with
    | nil => exact absurd rfl (hty [] rfl)
    | cons c cs => rfl

/-- C1 (amended): `get_transactions(days, type?)` returns exactly the
window `date ≥ today − days` (further restricted to the given type),
sorted by date descending, with equal dates kept in original relative
order; in particular `days = 0` sets the cutoff to `today` itself and
selects the transactions dated today or later — only today's when no
transaction is future-dated. -/
theorem get_transactions_correct (ts : List Transaction) (today : Date)
    (days : Nat) (ty : Option Str) (hty : ∀ s, ty = some s → s ≠ []) :
    (get_transactions ts today days ty).Perm (typedWindow ts today days ty) ∧
    List.Sorted dateDescRel (get_transactions ts today days ty) ∧
    ∀ d : Date,
      (get_transactions ts today days ty).filter
          (fun t => decide (t.date = d)) =
        (typedWindow ts today days ty).filter
          (fun t => decide (t.date = d)) := by
  rw [get_transactions_eq_insertionSort ts today days ty hty]
  exact ⟨List.perm_insertionSort dateDescRel _,
    List.sorted_insertionSort dateDescRel _,
    fun d => filter_date_insertionSort d _⟩

/-- Counterexample to C1's final clause: with `days = 0` the cutoff is
`today` itself, so a FUTURE-dated transaction (here dated one day after
today) is also selected — not only today's transactions. -/
theorem get_transactions_day0_cex :
    get_transactions [⟨1, ⟨2024, 10, 13⟩, 5, "Еда".toList, [], expenseStr⟩]
        ⟨2024, 10, 12⟩ 0 none =
      [⟨1, ⟨2024, 10, 13⟩, 5, "Еда".toList, [], expenseStr⟩] ∧
    (⟨2024, 10, 13⟩ : Date) ≠ ⟨2024, 10, 12⟩ :=
  ⟨by decide, by decide⟩

/-- Witness for C1 at a concrete store, window and type filter. -/
theorem get_transactions_correct_witness :
    (get_transactions
        [⟨1, ⟨2024, 10, 1⟩, 5, "Еда".toList, [], expenseStr⟩,
         ⟨2, ⟨2024, 10, 5⟩, 7, "Зарплата".toList, [], incomeStr⟩]
        ⟨2024, 10, 12⟩ 30 (some incomeStr)).Perm
      (typedWindow
        [⟨1, ⟨2024, 10, 1⟩, 5, "Еда".toList, [], expenseStr⟩,
         ⟨2, ⟨2024, 10, 5⟩, 7, "Зарплата".toList, [], incomeStr⟩]
        ⟨2024, 10, 12⟩ 30 (some incomeStr)) :=
  (get_transactions_correct _ _ _ _
    (fun s hs => by cases hs; decide)).1

/-! ### Balance -/

theorem get_balance_eq (ts : List Transaction) (today : Date) (days : Nat) :
    get_balance ts today days =
      (((window ts today days).filter fun t =>
          decide (t.type = incomeStr)).map Transaction.amount).sum -
      (((window ts today days).filter fun t =>
          decide (t.type = expenseStr)).map Transaction.amount).sum := by
  have hperm := List.perm_insertionSort dateDescRel (window ts today days)
  have e1 : get_balance ts today days =
      (((get_transactions ts today days none).filter fun t =>
          decide (t.type = incomeStr)).map Transaction.amount).sum -
      (((get_transactions ts today days none).filter fun t =>
          decide (t.type = expenseStr)).map Transaction.amount).sum := rfl
  have h0 : get_transactions ts today days none =
      List.insertionSort dateDescRel (window ts today days) := rfl
  rw [e1, h0, ((hperm.filter _).map Transaction.amount).sum_eq,
    ((hperm.filter _).map Transaction.amount).sum_eq]

/-- C3: `get_balance(days)` is the income sum minus the expense sum over
the windowed set, and is 0 when the window is empty. -/
theorem get_balance_correct (ts : List Transaction) (today : Date)
    (days : Nat) :
    (get_balance ts today days =
      (((window ts today days).filter fun t =>
          decide (t.type = incomeStr)).map Transaction.amount).sum -
      (((window ts today days).filter fun t =>
          decide (t.type = expenseStr)).map Transaction.amount).sum) ∧
    (window ts today days = [] → get_balance ts today days = 0) := by
  refine ⟨get_balance_eq ts today days, fun h => ?_⟩
  rw [get_balance_eq ts today days, h]
  simp

/-- Witness for C3: the empty window really yields balance 0. -/
theorem get_balance_correct_witness :
    get_balance [] ⟨2024, 10, 12⟩ 30 = 0 :=
  (get_balance_correct [] ⟨2024, 10, 12⟩ 30).2 rfl

/-! ### Category summary machinery -/

/-- Accumulating a list of transactions into a `defaultdict`-style map. -/
def accum (m : List (Str × ℚ)) (l : List Transaction) : List (Str × ℚ) :=
  l.foldl (fun m t => updateMap m t.category t.amount) m

theorem summary_foldl (l : List Transaction)
    (acc : List (Str × ℚ) × List (Str × ℚ)) :
    l.foldl summaryStep acc =
      (accum acc.1 (l.filter fun t => decide (t.type = incomeStr)),
       accum acc.2 (l.filter fun t => !decide (t.type = incomeStr))) := by
  induction l generalizing acc with
  | nil => simp [accum]
  | cons t l ih =>
    simp only [List.foldl_cons, List.filter_cons]
    by_cases h : t.type = incomeStr <;>
      simp [summaryStep, h, ih, accum]

theorem get_category_summary_eq (ts : List Transaction) (today : Date)
    (days : Nat) :
    get_category_summary ts today days =
      (accum [] ((get_transactions ts today days none).filter fun t =>
          decide (t.type = incomeStr)),
       accum [] ((get_transactions ts today days none).filter fun t =>
          !decide (t.type = incomeStr))) := by
  rw [show get_category_summary ts today days =
      (get_transactions ts today days none).foldl summaryStep ([], []) from
      rfl, summary_foldl]

theorem keys_updateMap (m : List (Str × ℚ)) (k k' : Str) (v : ℚ) :
    k ∈ (updateMap m k' v).map Prod.fst ↔
      k ∈ m.map Prod.fst ∨ k = k' := by
  induction m with
  | nil => simp [updateMap]
  | cons p m ih =>
    obtain ⟨k'', v''⟩ := p
    simp only [updateMap]
    by_cases h : k'' = k' <;> simp [h, ih] <;> tauto

theorem keys_accum (l : List Transaction) (m : List (Str × ℚ)) (k : Str) :
    k ∈ (accum m l).map Prod.fst ↔
      k ∈ m.map Prod.fst ∨ ∃ t ∈ l, t.category = k := by
  induction l generalizing m with
  | nil => simp [accum]
  | cons t l ih =>
    show k ∈ (accum (updateMap m t.category t.amount) l).map Prod.fst ↔ _
    rw [ih, keys_updateMap]
    simp only [List.mem_cons]
    constructor
    · rintro ((h | h) | ⟨t', ht', h⟩)
      · exact Or.inl h
      · exact Or.inr ⟨t, Or.inl rfl, h.symm⟩
      · exact Or.inr ⟨t', Or.inr ht', h⟩
    · rintro (h | ⟨t', (rfl | ht'), h⟩)
      · exact Or.inl (Or.inl h)
      · exact Or.inl (Or.inr h.symm)
      · exact Or.inr ⟨t', ht', h⟩

theorem sumVals_updateMap (m : List (Str × ℚ)) (k : Str) (v : ℚ) :
    ((updateMap m k v).map Prod.snd).sum = (m.map Prod.snd).sum + v := by
  induction m with
  | nil => simp [updateMap]
  | cons p m ih =>
    obtain ⟨k', v'⟩ := p
    simp only [updateMap]
    by_cases h : k' = k <;> simp [h, ih] <;> ring

theorem sumVals_accum (l : List Transaction) (m : List (Str × ℚ)) :
    ((accum m l).map Prod.snd).sum =
      (m.map Prod.snd).sum + (l.map Transaction.amount).sum := by
  induction l generalizing m with
  | nil => simp [accum]
  | cons t l ih =>
    show ((accum (updateMap m t.category t.amount) l).map Prod.snd).sum = _
    rw [ih, sumVals_updateMap]
    simp
    ring

theorem nonneg_updateMap (m : List (Str × ℚ)) (k : Str) (v : ℚ)
    (hm : ∀ p ∈ m, 0 ≤ p.2) (hv : 0 ≤ v) :
    ∀ p ∈ updateMap m k v, 0 ≤ p.2 := by
  induction m with
  | nil =>
    intro p hp
    simp only [updateMap, List.mem_singleton] at hp
    subst hp; exact hv
  | cons q m ih =>
    obtain ⟨k', v'⟩ := q
    intro p hp
    simp only [updateMap] at hp
    by_cases h : k' = k
    · rw [if_pos h] at hp
      rcases List.mem_cons.mp hp with h' | h'
      · subst h'
        have h1 : (0 : ℚ) ≤ v' := hm (k', v') (List.mem_cons_self _ _)
        have : (0 : ℚ) ≤ v' + v := add_nonneg h1 hv
        simpa using this
      · exact hm p (List.mem_cons_of_mem _ h')
    · rw [if_neg h] at hp
      rcases List.mem_cons.mp hp with h' | h'
      · subst h'; exact hm (k', v') (List.mem_cons_self _ _)
      · exact ih (fun q hq => hm q (List.mem_cons_of_mem _ hq)) p h'

theorem nonneg_accum (l : List Transaction) (m : List (Str × ℚ))
    (hm : ∀ p ∈ m, 0 ≤ p.2) (hl : ∀ t ∈ l, 0 ≤ t.amount) :
    ∀ p ∈ accum m l, 0 ≤ p.2 := by
  induction l generalizing m with
  | nil => exact hm
  | cons t l ih =>
    show ∀ p ∈ accum (updateMap m t.category t.amount) l, 0 ≤ p.2
    exact ih _
      (nonneg_updateMap m _ _ hm (hl t (List.mem_cons_self _ _)))
      (fun t' ht' => hl t' (List.mem_cons_of_mem _ ht'))

theorem mem_get_transactions_none {t : Transaction}
    {ts : List Transaction} {today : Date} {days : Nat} :
    t ∈ get_transactions ts today days none ↔ t ∈ window ts today days :=
  (List.perm_insertionSort dateDescRel (window ts today days)).mem_iff

theorem window_subset {t : Transaction} {ts : List Transaction}
    {today : Date} {days : Nat} (h : t ∈ window ts today days) : t ∈ ts :=
  (List.mem_filter.mp h).1

theorem summary_keys_iff (ts : List Transaction) (today : Date)
    (days : Nat) (k : Str) :
    (k ∈ (get_category_summary ts today days).1.map Prod.fst ↔
      ∃ t ∈ window ts today days, t.type = incomeStr ∧ t.category = k) ∧
    (k ∈ (get_category_summary ts today days).2.map Prod.fst ↔
      ∃ t ∈ window ts today days, ¬ t.type = incomeStr ∧ t.category = k) := by
  rw [get_category_summary_eq]
  refine ⟨?_, ?_⟩
  · show k ∈ (accum []
        ((get_transactions ts today days none).filter fun t =>
          decide (t.type = incomeStr))).map Prod.fst ↔ _
    rw [keys_accum]
    simp only [List.map_nil, List.not_mem_nil, false_or]
    constructor
    · rintro ⟨t, ht, hk⟩
      obtain ⟨htx, hp⟩ := List.mem_filter.mp ht
      exact ⟨t, mem_get_transactions_none.mp htx, by simpa using hp, hk⟩
    · rintro ⟨t, ht, hty, hk⟩
      exact ⟨t, List.mem_filter.mpr
        ⟨mem_get_transactions_none.mpr ht, by simpa using hty⟩, hk⟩
  · show k ∈ (accum []
        ((get_transactions ts today days none).filter fun t =>
          !decide (t.type = incomeStr))).map Prod.fst ↔ _
    rw [keys_accum]
    simp only [List.map_nil, List.not_mem_nil, false_or]
    constructor
    · rintro ⟨t, ht, hk⟩
      obtain ⟨htx, hp⟩ := List.mem_filter.mp ht
      exact ⟨t, mem_get_transactions_none.mp htx, by simpa using hp, hk⟩
    · rintro ⟨t, ht, hty, hk⟩
      exact ⟨t, List.mem_filter.mpr
        ⟨mem_get_transactions_none.mpr ht, by simpa using hty⟩, hk⟩

/-- C9 (amended): the income mapping contains exactly the categories
with at least one income transaction in the window; the expense mapping
contains exactly the categories with at least one windowed transaction
whose type is not `'income'` (so, in particular, no category ever
appears with no windowed activity). -/
theorem get_category_summary_keys (ts : List Transaction) (today : Date)
    (days : Nat) (k : Str) :
    (k ∈ (get_category_summary ts today days).1.map Prod.fst ↔
      ∃ t ∈ window ts today days, t.type = incomeStr ∧ t.category = k) ∧
    (k ∈ (get_category_summary ts today days).2.map Prod.fst ↔
      ∃ t ∈ window ts today days, ¬ t.type = incomeStr ∧ t.category = k) :=
  summary_keys_iff ts today days k

/-- Counterexample to C9 as stated: a store whose only transaction has
the type `'перевод'` — not `'expense'` — yet its category shows up in
the expense mapping, so the expense mapping does not contain exactly the
categories with an expense-typed transaction in the window. -/
theorem get_category_summary_keys_cex :
    ((get_category_summary
        [⟨1, ⟨2024, 10, 1⟩, 10, "Еда".toList, [], "перевод".toList⟩]
        ⟨2024, 10, 12⟩ 30).2.map Prod.fst = ["Еда".toList]) ∧
    "перевод".toList ≠ expenseStr ∧ "перевод".toList ≠ incomeStr := by
  refine ⟨?_, by decide, by decide⟩
  decide

theorem window_filter_comm (p : Transaction → Bool) (ts : List Transaction)
    (today : Date) (days : Nat) :
    window (ts.filter p) today days = (window ts today days).filter p := by
  unfold window
  rw [List.filter_comm]

/-- C6 (amended): a transaction whose type is neither `'income'` nor
`'expense'` is excluded from `get_balance` (dropping all such
transactions leaves the balance unchanged) and from the income mapping
of `get_category_summary`, but it is NOT excluded from the expense
mapping: the `else` branch of the summary loop accumulates every
non-income type there. Nothing crashes. -/
theorem aggregation_nonstandard_type (ts : List Transaction) (today : Date)
    (days : Nat) :
    (get_balance (ts.filter fun t =>
        decide (t.type = incomeStr) || decide (t.type = expenseStr))
        today days = get_balance ts today days) ∧
    (∀ k : Str, k ∈ (get_category_summary ts today days).1.map Prod.fst →
      ∃ t ∈ window ts today days, t.type = incomeStr ∧ t.category = k) ∧
    (∀ t ∈ window ts today days, ¬ t.type = incomeStr →
      t.category ∈ (get_category_summary ts today days).2.map Prod.fst) := by
  refine ⟨?_, ?_, ?_⟩
  · rw [get_balance_eq, get_balance_eq, window_filter_comm,
      List.filter_filter, List.filter_filter]
    congr 1
    · congr 2
      apply List.filter_congr
      intro t _
      by_cases h : t.type = incomeStr <;> simp [h]
    · congr 2
      apply List.filter_congr
      intro t _
      by_cases h : t.type = expenseStr <;> simp [h]
  · intro k hk
    exact ((summary_keys_iff ts today days k).1).mp hk
  · intro t ht hty
    exact ((summary_keys_iff ts today days t.category).2).mpr
      ⟨t, ht, hty, rfl⟩

/-- Counterexample to C6 as stated: a windowed transaction typed
`'бартер'` (neither income nor expense) is counted by
`get_category_summary` — it lands in the expense mapping instead of
being excluded from all maps. -/
theorem aggregation_nonstandard_type_cex :
    ((get_category_summary
        [⟨1, ⟨2024, 10, 2⟩, 7, "Техника".toList, [], "бартер".toList⟩]
        ⟨2024, 10, 12⟩ 30).2 = [("Техника".toList, 7)]) ∧
    "бартер".toList ≠ incomeStr ∧ "бартер".toList ≠ expenseStr := by
  refine ⟨?_, by decide, by decide⟩
  decide

/-- Witness for C6 (amended), third conjunct: the non-income-typed
transaction's category really appears in the expense mapping. -/
theorem aggregation_nonstandard_type_witness :
    "Техника".toList ∈
      (get_category_summary
        [⟨1, ⟨2024, 10, 2⟩, 7, "Техника".toList, [], "бартер".toList⟩]
        ⟨2024, 10, 12⟩ 30).2.map Prod.fst :=
  (aggregation_nonstandard_type
      [⟨1, ⟨2024, 10, 2⟩, 7, "Техника".toList, [], "бартер".toList⟩]
      ⟨2024, 10, 12⟩ 30).2.2
    ⟨1, ⟨2024, 10, 2⟩, 7, "Техника".toList, [], "бартер".toList⟩
    (by decide) (by decide)

theorem summary_fst_vals_nonneg (ts : List Transaction) (today : Date)
    (days : Nat) (h : ∀ t ∈ ts, 0 ≤ t.amount) :
    ∀ p ∈ (get_category_summary ts today days).1, 0 ≤ p.2 := by
  rw [get_category_summary_eq]
  show ∀ p ∈ accum []
      ((get_transactions ts today days none).filter fun t =>
        decide (t.type = incomeStr)), 0 ≤ p.2
  refine nonneg_accum _ [] (by simp) ?_
  intro t ht
  exact h t (window_subset
    (mem_get_transactions_none.mp (List.mem_filter.mp ht).1))

theorem summary_snd_vals_nonneg (ts : List Transaction) (today : Date)
    (days : Nat) (h : ∀ t ∈ ts, 0 ≤ t.amount) :
    ∀ p ∈ (get_category_summary ts today days).2, 0 ≤ p.2 := by
  rw [get_category_summary_eq]
  show ∀ p ∈ accum []
      ((get_transactions ts today days none).filter fun t =>
        !decide (t.type = incomeStr)), 0 ≤ p.2
  refine nonneg_accum _ [] (by simp) ?_
  intro t ht
  exact h t (window_subset
    (mem_get_transactions_none.mp (List.mem_filter.mp ht).1))

/-- C8: the percentage computed by `display_summary` for a category with
accumulated amount `a` equals `a / total * 100` whenever the type's
total is nonzero, and is 0 whenever the total is 0 — in particular a
zero income total yields percentage 0 for every income category, with no
division-by-zero fault. -/
theorem display_percentage_correct (ts : List Transaction) (today : Date)
    (days : Nat) (h : ∀ t ∈ ts, 0 ≤ t.amount) :
    ((((get_category_summary ts today days).1.map Prod.snd).sum = 0 →
      ∀ p ∈ (get_category_summary ts today days).1,
        percentage p.2
          (((get_category_summary ts today days).1.map Prod.snd).sum) = 0)) ∧
    (∀ p ∈ (get_category_summary ts today days).1,
      percentage p.2
          (((get_category_summary ts today days).1.map Prod.snd).sum) =
        if ((get_category_summary ts today days).1.map Prod.snd).sum = 0
        then 0
        else p.2 /
          (((get_category_summary ts today days).1.map Prod.snd).sum) *
            100) ∧
    ((((get_category_summary ts today days).2.map Prod.snd).sum = 0 →
      ∀ p ∈ (get_category_summary ts today days).2,
        percentage p.2
          (((get_category_summary ts today days).2.map Prod.snd).sum) = 0)) ∧
    (∀ p ∈ (get_category_summary ts today days).2,
      percentage p.2
          (((get_category_summary ts today days).2.map Prod.snd).sum) =
        if ((get_category_summary ts today days).2.map Prod.snd).sum = 0
        then 0
        else p.2 /
          (((get_category_summary ts today days).2.map Prod.snd).sum) *
            100) := by
  refine ⟨fun h0 p _ => ?_, fun p hp => ?_, fun h0 p _ => ?_, fun p hp => ?_⟩
  · rw [h0]
    simp [percentage]
  · by_cases h0 : ((get_category_summary ts today days).1.map Prod.snd).sum = 0
    · rw [if_pos h0, h0]
      simp [percentage]
    · rw [if_neg h0]
      have hnn : 0 ≤ ((get_category_summary ts today days).1.map Prod.snd).sum := by
        refine List.sum_nonneg ?_
        intro x hx
        obtain ⟨q, hq, hqx⟩ := List.mem_map.mp hx
        exact hqx ▸ summary_fst_vals_nonneg ts today days h q hq
      have hpos : 0 < ((get_category_summary ts today days).1.map Prod.snd).sum :=
        lt_of_le_of_ne hnn (Ne.symm h0)
      rw [percentage, if_pos hpos]
  · rw [h0]
    simp [percentage]
  · by_cases h0 : ((get_category_summary ts today days).2.map Prod.snd).sum = 0
    · rw [if_pos h0, h0]
      simp [percentage]
    · rw [if_neg h0]
      have hnn : 0 ≤ ((get_category_summary ts today days).2.map Prod.snd).sum := by
        refine List.sum_nonneg ?_
        intro x hx
        obtain ⟨q, hq, hqx⟩ := List.mem_map.mp hx
        exact hqx ▸ summary_snd_vals_nonneg ts today days h q hq
      have hpos : 0 < ((get_category_summary ts today days).2.map Prod.snd).sum :=
        lt_of_le_of_ne hnn (Ne.symm h0)
      rw [percentage, if_pos hpos]

/-- Witness for C8: a window whose only income transaction has amount 0,
so the income total is 0 and the computed percentage is 0. -/
theorem display_percentage_correct_witness :
    percentage 0
      (((get_category_summary
          [⟨1, ⟨2024, 10, 1⟩, 0, "Зарплата".toList, [], incomeStr⟩]
          ⟨2024, 10, 12⟩ 30).1.map Prod.snd).sum) = 0 := by
  have h1 : (get_category_summary
      [⟨1, ⟨2024, 10, 1⟩, 0, "Зарплата".toList, [], incomeStr⟩]
      ⟨2024, 10, 12⟩ 30).1 = [("Зарплата".toList, (0 : ℚ))] := by decide
  exact (display_percentage_correct
      [⟨1, ⟨2024, 10, 1⟩, 0, "Зарплата".toList, [], incomeStr⟩]
      ⟨2024, 10, 12⟩ 30 (by decide)).1 (by rw [h1]; simp)
    ("Зарплата".toList, 0) (by rw [h1]; simp)

/-- C10: when every transaction's type is `'income'` or `'expense'`,
`get_balance` equals the sum of the income mapping's values minus the
sum of the expense mapping's values of `get_category_summary`. -/
theorem get_balance_eq_category_summary (ts : List Transaction)
    (today : Date) (days : Nat)
    (h : ∀ t ∈ ts, t.type = incomeStr ∨ t.type = expenseStr) :
    get_balance ts today days =
      ((get_category_summary ts today days).1.map Prod.snd).sum -
      ((get_category_summary ts today days).2.map Prod.snd).sum := by
  rw [get_category_summary_eq]
  show get_balance ts today days =
    ((accum [] ((get_transactions ts today days none).filter fun t =>
        decide (t.type = incomeStr))).map Prod.snd).sum -
    ((accum [] ((get_transactions ts today days none).filter fun t =>
        !decide (t.type = incomeStr))).map Prod.snd).sum
  rw [sumVals_accum, sumVals_accum]
  simp only [List.map_nil, List.sum_nil, zero_add]
  have e1 : get_balance ts today days =
      (((get_transactions ts today days none).filter fun t =>
          decide (t.type = incomeStr)).map Transaction.amount).sum -
      (((get_transactions ts today days none).filter fun t =>
          decide (t.type = expenseStr)).map Transaction.amount).sum := rfl
  rw [e1]
  congr 3
  apply List.filter_congr
  intro t ht
  have hmem : t ∈ ts :=
    window_subset (mem_get_transactions_none.mp ht)
  rcases h t hmem with h' | h' <;> rw [h'] <;> rfl

/-- Witness for C10 on a store with one income and one expense
transaction in the window. -/
theorem get_balance_eq_category_summary_witness :
    get_balance
        [⟨1, ⟨2024, 10, 1⟩, 30, "Зарплата".toList, [], incomeStr⟩,
         ⟨2, ⟨2024, 10, 3⟩, 12, "Еда".toList, [], expenseStr⟩]
        ⟨2024, 10, 12⟩ 30 =
      ((get_category_summary
          [⟨1, ⟨2024, 10, 1⟩, 30, "Зарплата".toList, [], incomeStr⟩,
           ⟨2, ⟨2024, 10, 3⟩, 12, "Еда".toList, [], expenseStr⟩]
          ⟨2024, 10, 12⟩ 30).1.map Prod.snd).sum -
      ((get_category_summary
          [⟨1, ⟨2024, 10, 1⟩, 30, "Зарплата".toList, [], incomeStr⟩,
           ⟨2, ⟨2024, 10, 3⟩, 12, "Еда".toList, [], expenseStr⟩]
          ⟨2024, 10, 12⟩ 30).2.map Prod.snd).sum :=
  get_balance_eq_category_summary _ _ _ (by decide)

/-! ### Numeral and date-format round trip -/

theorem toDigitsRev_eq_digits : ∀ (f n : Nat), n ≤ f →
    toDigitsRev f n = Nat.digits 10 n := by
  intro f
  induction f with
  | zero =>
    intro n hn
    interval_cases n
    simp [toDigitsRev]
  | succ f ih =>
    intro n hn
    by_cases h : n = 0
    · subst h; simp [toDigitsRev]
    · rw [toDigitsRev, if_neg h,
        ih (n / 10) (by
          have : n / 10 < n := Nat.div_lt_self (Nat.pos_of_ne_zero h)
            (by norm_num)
          omega),
        Nat.digits_def' (by norm_num : (1:ℕ) < 10) (Nat.pos_of_ne_zero h)]

theorem digitChar_spec {d : Nat} (hd : d < 10) :
    isDigitCh (digitChar d) = true ∧ digitChar d ≠ '-' ∧
      (digitChar d).toNat - 48 = d := by
  interval_cases d <;> exact ⟨by decide, by decide, by decide⟩

theorem natToStr_chars (n : Nat) :
    ∀ c ∈ natToStr n, isDigitCh c = true ∧ c ≠ '-' := by
  intro c hc
  by_cases h : n = 0
  · subst h
    rw [show natToStr 0 = ['0'] from rfl, List.mem_singleton] at hc
    subst hc
    exact ⟨by decide, by decide⟩
  · simp only [natToStr, if_neg h] at hc
    obtain ⟨d, hd, rfl⟩ := List.mem_map.mp hc
    have hd10 : d < 10 := by
      rw [toDigitsRev_eq_digits n n le_rfl] at hd
      exact Nat.digits_lt_base (by norm_num) (List.mem_reverse.mp hd)
    exact ⟨(digitChar_spec hd10).1, (digitChar_spec hd10).2.1⟩

theorem foldl_digits (l : List Nat) : ∀ (a : Nat), (∀ d ∈ l, d < 10) →
    (l.reverse.map digitChar).foldl (fun a c => a * 10 + (c.toNat - 48)) a =
      a * 10 ^ l.length + Nat.ofDigits 10 l := by
  induction l with
  | nil => intro a _; simp [Nat.ofDigits]
  | cons d l ih =>
    intro a hl
    have hd : d < 10 := hl d (List.mem_cons_self _ _)
    have hrest : ∀ x ∈ l, x < 10 := fun x hx => hl x (List.mem_cons_of_mem _ hx)
    rw [List.reverse_cons, List.map_append, List.foldl_append]
    simp only [List.map_cons, List.map_nil, List.foldl_cons, List.foldl_nil]
    rw [ih a hrest, (digitChar_spec hd).2.2, Nat.ofDigits_cons,
      List.length_cons, pow_succ]
    ring

theorem natToStr_ne_nil (n : Nat) : natToStr n ≠ [] := by
  by_cases h : n = 0
  · subst h; decide
  · simp only [natToStr, if_neg h]
    simp only [ne_eq, List.map_eq_nil_iff, List.reverse_eq_nil_iff]
    rw [toDigitsRev_eq_digits n n le_rfl]
    exact Nat.digits_ne_nil_iff_ne_zero.mpr h

theorem parseNat_natToStr (n : Nat) : parseNat (natToStr n) = some n := by
  have hall : (natToStr n).all isDigitCh = true := by
    rw [List.all_eq_true]
    exact fun c hc => (natToStr_chars n c hc).1
  unfold parseNat
  rw [if_pos ⟨natToStr_ne_nil n, hall⟩]
  by_cases h : n = 0
  · subst h; decide
  · simp only [natToStr, if_neg h]
    rw [toDigitsRev_eq_digits n n le_rfl,
      foldl_digits _ 0 (fun d hd => Nat.digits_lt_base (by norm_num) hd),
      Nat.ofDigits_digits]
    simp

theorem parseNat_pad2 (n : Nat) : parseNat (pad2 n) = some n := by
  by_cases h : n < 10
  · interval_cases n <;> decide
  · simp only [pad2, if_neg h]
    exact parseNat_natToStr n

theorem pad2_chars (n : Nat) :
    ∀ c ∈ pad2 n, isDigitCh c = true ∧ c ≠ '-' := by
  intro c hc
  by_cases h : n < 10
  · simp only [pad2, if_pos h, List.mem_cons] at hc
    rcases hc with rfl | hc
    · exact ⟨by decide, by decide⟩
    · exact natToStr_chars n c hc
  · simp only [pad2, if_neg h] at hc
    exact natToStr_chars n c hc

theorem natToStr_length_le {n k : Nat} (hn : n ≠ 0) (h : n < 10 ^ k) :
    (natToStr n).length ≤ k := by
  simp only [natToStr, if_neg hn, List.length_map, List.length_reverse]
  rw [toDigitsRev_eq_digits n n le_rfl,
    Nat.digits_len 10 n (by norm_num) hn]
  have := (Nat.lt_pow_iff_log_lt (by norm_num : (1:ℕ) < 10) hn).mp h
  omega

theorem pad2_length_le {n : Nat} (h : n < 100) : (pad2 n).length ≤ 2 := by
  by_cases h10 : n < 10
  · simp only [pad2, if_pos h10, List.length_cons]
    by_cases h0 : n = 0
    · subst h0; decide
    · have := natToStr_length_le h0 (show n < 10 ^ 1 by omega)
      omega
  · simp only [pad2, if_neg h10]
    exact natToStr_length_le (by omega) (show n < 10 ^ 2 by omega)

theorem splitDash_no_dash : ∀ (s : Str), (∀ c ∈ s, c ≠ '-') →
    splitDash s = [s] := by
  intro s
  induction s with
  | nil => intro _; rfl
  | cons c cs ih =>
    intro h
    have hc : c ≠ '-' := h c (List.mem_cons_self _ _)
    rw [splitDash, if_neg hc,
      ih (fun x hx => h x (List.mem_cons_of_mem _ hx))]

theorem splitDash_append : ∀ (s rest : Str), (∀ c ∈ s, c ≠ '-') →
    splitDash (s ++ '-' :: rest) = s :: splitDash rest := by
  intro s rest
  induction s with
  | nil =>
    intro _
    show splitDash ('-' :: rest) = [] :: splitDash rest
    rw [splitDash, if_pos rfl]
  | cons c cs ih =>
    intro h
    have hc : c ≠ '-' := h c (List.mem_cons_self _ _)
    show splitDash (c :: (cs ++ '-' :: rest)) = (c :: cs) :: splitDash rest
    rw [splitDash, if_neg hc, ih (fun x hx => h x (List.mem_cons_of_mem _ hx))]

theorem splitDash_formatDate (d : Date) :
    splitDash (formatDate d) = [natToStr d.year, pad2 d.month, pad2 d.day] := by
  unfold formatDate
  rw [splitDash_append _ _ (fun c hc => (natToStr_chars d.year c hc).2),
    splitDash_append _ _ (fun c hc => (pad2_chars d.month c hc).2),
    splitDash_no_dash _ (fun c hc => (pad2_chars d.day c hc).2)]

theorem natToStr_length_four {n : Nat} (h1 : 1000 ≤ n) (h2 : n ≤ 9999) :
    (natToStr n).length = 4 := by
  have hn : n ≠ 0 := by omega
  simp only [natToStr, if_neg hn, List.length_map, List.length_reverse]
  rw [toDigitsRev_eq_digits n n le_rfl,
    Nat.digits_len 10 n (by norm_num) hn]
  have hlog : Nat.log 10 n = 3 := by
    apply Nat.log_eq_of_pow_le_of_lt_pow <;> norm_num <;> omega
  omega

theorem parseDay_pad2 {n : Nat} (h1 : 1 ≤ n) (h31 : n ≤ 31) :
    parseDay (pad2 n) = some n := by
  unfold parseDay
  rw [parseNat_pad2]
  show (if (pad2 n).length ≤ 2 ∧ 1 ≤ n ∧ n ≤ 31 then some n else none) =
    some n
  rw [if_pos ⟨pad2_length_le (by omega), h1, h31⟩]

/-- Parsing a formatted valid date with a four-digit year returns
exactly the original date (`strftime` writes a year below 1000 with
fewer than four digits, which `strptime`'s `'%Y'` then rejects). -/
theorem parseDate_formatDate {d : Date} (hd : ValidDate d)
    (hy : 1000 ≤ d.year) :
    parseDate (formatDate d) = some d := by
  obtain ⟨h1, h2, h3, h4, h5, h6⟩ := hd
  have hdm : daysInMonth d.year d.month ≤ 31 := by
    unfold daysInMonth
    split_ifs <;> omega
  have hy4 : (natToStr d.year).length = 4 := natToStr_length_four hy h2
  have hm2 : (pad2 d.month).length ≤ 2 := pad2_length_le (by omega)
  unfold parseDate
  rw [splitDash_formatDate]
  simp only [parseNat_natToStr, parseNat_pad2,
    parseDay_pad2 h5 (by omega : d.day ≤ 31)]
  rw [if_pos ⟨hy4, hm2, h1, h3, h4, h6⟩]

/-- A saved transaction with a valid four-digit-year date loads back
unchanged. -/
theorem loadRecord_saveRecord {t : Transaction} (h : ValidDate t.date)
    (hy : 1000 ≤ t.date.year) :
    loadRecord (saveRecord t) = some t := by
  have e : loadRecord (saveRecord t) =
      (parseDate (formatDate t.date)).map fun d =>
        { id := t.id, date := d, amount := t.amount,
          category := t.category, description := t.description,
          type := t.type } := rfl
  rw [e, parseDate_formatDate h hy]
  rfl

theorem loadAttempt_save_data {ts : List Transaction}
    (h : ∀ t ∈ ts, ValidDate t.date ∧ 1000 ≤ t.date.year) :
    loadAttempt (save_data ts) = some ts := by
  induction ts with
  | nil => rfl
  | cons t ts ih =>
    show loadAttempt (saveRecord t :: save_data ts) = some (t :: ts)
    rw [loadAttempt,
      loadRecord_saveRecord (h t (List.mem_cons_self _ _)).1
        (h t (List.mem_cons_self _ _)).2,
      ih (fun t' ht' => h t' (List.mem_cons_of_mem _ ht'))]

/-- C2 (amended): `save_data()` followed by `load_data()` restores the
transaction sequence field-for-field for every sequence of valid
transactions whose dates have four-digit years, whatever was in memory
before the load.  For a date before year 1000 `strftime('%Y')` writes
the year unpadded with fewer than four digits, `strptime`'s `'%Y'`
rejects it, and the reload resets the store to empty instead. -/
theorem save_load_roundtrip (prior ts : List Transaction)
    (h : ∀ t ∈ ts, ValidDate t.date ∧ 1000 ≤ t.date.year) :
    load_data prior (.good (save_data ts)) = ts := by
  show (match loadAttempt (save_data ts) with
    | some ts => ts
    | none => ([] : List Transaction)) = ts
  rw [loadAttempt_save_data h]

/-- Counterexample to C2 as stated: a transaction dated 0999-12-31 is a
valid transaction (`datetime.date` holds it), but `save` writes its year
as the three characters `'999'`, the reload's `strptime` rejects that
against `'%Y'`, and the store comes back empty rather than equal to the
pre-save sequence. -/
theorem save_load_roundtrip_cex :
    load_data []
        (.good (save_data
          [⟨1, ⟨999, 12, 31⟩, 5, "Еда".toList, [], expenseStr⟩])) = [] ∧
    ([⟨1, ⟨999, 12, 31⟩, 5, "Еда".toList, [], expenseStr⟩] :
      List Transaction) ≠ [] ∧
    ValidDate ⟨999, 12, 31⟩ :=
  ⟨by decide, by decide, by decide⟩

/-- Witness for C2 (amended): a round trip over transactions with an
empty description, a zero amount, a leap-day date and non-ASCII text. -/
theorem save_load_roundtrip_witness :
    load_data
        [⟨9, ⟨2000, 1, 1⟩, 1, "Еда".toList, [], expenseStr⟩]
        (.good (save_data
          [⟨1, ⟨2024, 2, 29⟩, 0, "Зарплата".toList, [], incomeStr⟩,
           ⟨2, ⟨1999, 12, 31⟩, 25 / 2, "Прочие расходы".toList,
             "кофе у Ани ☕".toList, expenseStr⟩])) =
      [⟨1, ⟨2024, 2, 29⟩, 0, "Зарплата".toList, [], incomeStr⟩,
       ⟨2, ⟨1999, 12, 31⟩, 25 / 2, "Прочие расходы".toList,
         "кофе у Ани ☕".toList, expenseStr⟩] :=
  save_load_roundtrip _ _ (by decide)

/-! ### Load behaviour -/

theorem loadAttempt_none_of_badDate : ∀ (recs : List Record),
    (∃ r ∈ recs, parseDate r.date = none) → loadAttempt recs = none := by
  intro recs
  induction recs with
  | nil => rintro ⟨r, hr, _⟩; cases hr
  | cons r rs ih =>
    rintro ⟨r', hr', hbad⟩
    rcases List.mem_cons.mp hr' with rfl | hmem
    · have hr0 : loadRecord r' = none := by
        unfold loadRecord
        rw [hbad]
        rfl
      rw [loadAttempt, hr0]
    · have hrs : loadAttempt rs = none := ih ⟨r', hmem, hbad⟩
      rw [loadAttempt, hrs]
      cases loadRecord r <;> rfl

/-- C4 (amended): `load_data` never raises; an unreadable file or a
record with an unparseable date resets the store to the empty sequence,
and a successful read replaces the store wholesale — but a MISSING file
leaves the prior in-memory sequence untouched (line 27 just skips the
body), so the store ends up empty after a failed load only when it was
already empty, as at construction time. -/
theorem load_data_behavior (prior : List Transaction) (recs : List Record) :
    load_data prior .missing = prior ∧
    load_data prior .corrupt = [] ∧
    ((∃ r ∈ recs, parseDate r.date = none) →
      load_data prior (.good recs) = []) ∧
    (∀ ts, loadAttempt recs = some ts → load_data prior (.good recs) = ts) := by
  refine ⟨rfl, rfl, fun h => ?_, fun ts h => ?_⟩
  · show (match loadAttempt recs with
      | some ts => ts
      | none => ([] : List Transaction)) = []
    rw [loadAttempt_none_of_badDate recs h]
  · show (match loadAttempt recs with
      | some ts => ts
      | none => ([] : List Transaction)) = ts
    rw [h]

/-- Counterexample to C4 as stated: with a missing store file,
`load_data` on a nonempty in-memory store leaves it nonempty instead of
resetting it to the empty sequence. -/
theorem load_data_missing_cex :
    load_data [⟨1, ⟨2024, 10, 1⟩, 5, "Еда".toList, [], expenseStr⟩]
      .missing ≠ [] := by decide

/-- Witness for C4 (amended): a record with month 13 empties the store. -/
theorem load_data_behavior_witness :
    load_data []
      (.good [⟨1, "2024-13-05".toList, 5, "Еда".toList, [], expenseStr⟩]) =
      [] :=
  (load_data_behavior [] _).2.2.1
    ⟨⟨1, "2024-13-05".toList, 5, "Еда".toList, [], expenseStr⟩,
      by decide, by decide⟩

/-! ### Adding transactions -/

/-- C5 (amended): `add_transaction` performs no category validation at
all — even a category outside the registry's list for the given type is
appended to the store (with `id = len + 1`, `amount = abs(amount)`) and
a save is triggered; the operation is never rejected. -/
theorem add_transaction_unregistered (tr : Tracker) (amount : ℚ)
    (category description ty : Str) (date : Option Date) (today : Date)
    (_h : category ∉ categories ty) :
    (add_transaction tr amount category description ty date today).transactions =
      tr.transactions ++
        [⟨tr.transactions.length + 1, date.getD today, |amount|,
          category, description, ty⟩] ∧
    (add_transaction tr amount category description ty date today).file =
      .good (save_data (tr.transactions ++
        [⟨tr.transactions.length + 1, date.getD today, |amount|,
          category, description, ty⟩])) :=
  ⟨rfl, rfl⟩

/-- Counterexample to C5 as stated: `'Казино'` is not a registered
expense category, yet the add is not rejected — the store is mutated and
a save is triggered. -/
theorem add_transaction_unregistered_cex :
    "Казино".toList ∉ categories expenseStr ∧
    (add_transaction ⟨[], .missing⟩ 100 "Казино".toList [] expenseStr none
        ⟨2024, 10, 12⟩).transactions ≠ [] ∧
    (add_transaction ⟨[], .missing⟩ 100 "Казино".toList [] expenseStr none
        ⟨2024, 10, 12⟩).file ≠ .missing :=
  ⟨by decide, by decide, by decide⟩

/-- Witness for C5 (amended) at the unregistered category `'Казино'`. -/
theorem add_transaction_unregistered_witness :
    (add_transaction ⟨[], .missing⟩ 100 "Казино".toList [] expenseStr none
        ⟨2024, 10, 12⟩).transactions =
      [⟨1, ⟨2024, 10, 12⟩, |(100 : ℚ)|, "Казино".toList, [], expenseStr⟩] :=
  (add_transaction_unregistered ⟨[], .missing⟩ 100 "Казино".toList []
    expenseStr none ⟨2024, 10, 12⟩ (by decide)).1

/-- The arguments of one `add_transaction` call. -/
structure AddArgs where
  amount : ℚ
  category : Str
  description : Str
  ty : Str
  date : Option Date
  today : Date

/-- A sequence of `add_transaction` calls. -/
def addAll (tr : Tracker) (l : List AddArgs) : Tracker :=
  l.foldl (fun tr a =>
    add_transaction tr a.amount a.category a.description a.ty a.date
      a.today) tr

theorem addAll_ids (l : List AddArgs) : ∀ (tr : Tracker),
    (addAll tr l).transactions.map Transaction.id =
      tr.transactions.map Transaction.id ++
        List.range' (tr.transactions.length + 1) l.length := by
  induction l with
  | nil => intro tr; simp [addAll]
  | cons a l ih =>
    intro tr
    show (addAll (add_transaction tr a.amount a.category a.description
        a.ty a.date a.today) l).transactions.map Transaction.id = _
    rw [ih]
    have e : (add_transaction tr a.amount a.category a.description a.ty
        a.date a.today).transactions =
        tr.transactions ++
          [⟨tr.transactions.length + 1, a.date.getD a.today, |a.amount|,
            a.category, a.description, a.ty⟩] := rfl
    rw [e]
    simp only [List.map_append, List.length_append, List.map_cons,
      List.map_nil, List.length_cons, List.length_nil, List.range'_succ,
      List.append_assoc, List.singleton_append, List.cons_append,
      List.nil_append]

/-- C7: every add appends a transaction with `id = current length + 1`
and `amount = abs(amount)` and triggers a save; N successive adds to an
empty store yield ids `1..N`; `add(-50)` stores amount 50. -/
theorem add_transaction_correct :
    (∀ (tr : Tracker) (amount : ℚ) (category description ty : Str)
        (date : Option Date) (today : Date),
      add_transaction tr amount category description ty date today =
        { transactions := tr.transactions ++
            [⟨tr.transactions.length + 1, date.getD today, |amount|,
              category, description, ty⟩],
          file := .good (save_data (tr.transactions ++
            [⟨tr.transactions.length + 1, date.getD today, |amount|,
              category, description, ty⟩])) }) ∧
    (∀ (f : FileState) (l : List AddArgs),
      (addAll ⟨[], f⟩ l).transactions.map Transaction.id =
        List.range' 1 l.length) ∧
    (∀ (tr : Tracker) (category description ty : Str)
        (date : Option Date) (today : Date),
      (add_transaction tr (-50) category description ty date
          today).transactions.map Transaction.amount =
        tr.transactions.map Transaction.amount ++ [50]) := by
  refine ⟨fun _ _ _ _ _ _ _ => rfl, fun f l => ?_,
    fun tr c d ty date today => ?_⟩
  · rw [addAll_ids]
    simp
  · have e : (add_transaction tr (-50) c d ty date today).transactions =
        tr.transactions ++
          [⟨tr.transactions.length + 1, date.getD today, |(-50 : ℚ)|,
            c, d, ty⟩] := rfl
    rw [e, List.map_append]
    have habs : |(-50 : ℚ)| = 50 := by
      rw [abs_of_nonpos (by norm_num)]
      norm_num
    simp [habs]

end FinanceTracker
